import Mathlib

/-!
Shallow embedding of the retrieval-augmented pipeline of the
`e2e-RAG-chat-app` backend (files `store.py`, `llm.py`, `embeddings.py`,
`app.py`), together with theorems settling the frozen claims about it.

Numeric values that are Python floats in the source are modelled as
rationals (`ℚ`); all constants involved are exact decimals, so the
algebraic content of the claims is preserved.  External libraries
(FAISS, Pinecone, sentence-transformers, the reranker, the chunker) are
treated as parameters: the functions below take their outputs as
arguments and embed only the repository's own logic.
-/

namespace RagApp

/-! ### String helpers (Python `in`, `lower`, `strip`) -/

/-- Whether the character list `pat` occurs at the head of `s`. -/
def charsStartWith : List Char → List Char → Bool
  | [], _ => true
  | _ :: _, [] => false
  | a :: as, b :: bs => a == b && charsStartWith as bs

/-- Whether `pat` occurs as a contiguous run inside `s`
(model of Python `pat in s` on strings). -/
def charsContain (s pat : List Char) : Bool :=
  (List.range (s.length + 1)).any fun i => charsStartWith pat (s.drop i)

/-- Python `pat in s` for strings. -/
def strContains (s pat : String) : Bool :=
  charsContain s.toList pat.toList

/-- Python `s.lower()` (character-wise lowering; all strings involved
are ASCII). -/
def pyLower (s : String) : String :=
  String.mk (s.toList.map Char.toLower)

/-- Python `s.strip()`: drop whitespace from both ends. -/
def pyStrip (s : String) : String :=
  String.mk (((s.toList.dropWhile Char.isWhitespace).reverse.dropWhile
    Char.isWhitespace).reverse)

/-- Split a character list on single spaces (Python `s.split(" ")`). -/
def splitOnSpace : List Char → List (List Char)
  | [] => [[]]
  | c :: cs =>
      let r := splitOnSpace cs
      if c = ' ' then [] :: r
      else
        match r with
        | [] => [[c]]
        | w :: ws => (c :: w) :: ws

/-! ### Score normalization — `VectorStore.search_faiss`, `store.py` 409-431

With two or more retrieved scores the code defines `normalize_score` with
`min_d = 1.0`, `max_d = 1.9`, returning `0.95` at or below `min_d`,
`0.6` at or above `max_d`, and otherwise
`0.95 - (score - min_d) * (0.25 / (max_d - min_d))`.
With at most one score it returns `1.0` for every input. -/

/-- The multi-hit branch of `normalize_score` (`store.py` 414-426). -/
def normalize_score_multi (score : ℚ) : ℚ :=
  let min_d : ℚ := 1
  let max_d : ℚ := 19/10
  if score ≤ min_d then 95/100
  else if score ≥ max_d then 6/10
  else 95/100 - (score - min_d) * ((25/100) / (max_d - min_d))

/-- Modelled from the spec: the claim's normalization map, in which
distances strictly between the thresholds are linearly interpolated
between the endpoint values `0.95` and `0.6`.  Stated only to be
compared against `normalize_score_multi`, which embeds the code. -/
def normalize_score_claim (score : ℚ) : ℚ :=
  if score ≤ 1 then 95/100
  else if score ≥ 19/10 then 6/10
  else 95/100 + (score - 1) / (19/10 - 1) * (6/10 - 95/100)

/-- The scores that survive the `score != -1` filter (`store.py` 407). -/
def presentScores (dists : List ℚ) : List ℚ :=
  dists.filter fun s => s ≠ -1

/-- Which `normalize_score` the search applies: the piecewise map when the
filtered score list has two or more entries, the constant `1.0` otherwise
(`store.py` 410-430). -/
def searchNormalize (scores : List ℚ) (score : ℚ) : ℚ :=
  if 1 < scores.length then normalize_score_multi score else 1

/-! ### The exact (FAISS) store's state — `store.py`

The FAISS index itself is an external library object; for the
persist/load invariant only its vector count (`ntotal`) matters, so the
in-memory index is modelled as `Option Nat` (`none` = `self.index is
None`).  The metadata sidecar is the list `self.meta`.  The filesystem
holds at most one index file (per model path) and one metadata file. -/

/-- One record of the metadata sidecar (`store.py` 270-277, 324-331). -/
structure Meta where
  file : String
  text : String
  page_number : Int
deriving DecidableEq

/-- In-memory store state: `self.index` (as its vector count) and
`self.meta`. -/
structure StoreMem where
  index : Option Nat
  meta : List Meta
deriving DecidableEq

/-- On-disk state: the model's index file (as its vector count when
present) and the metadata JSON file. -/
structure FS where
  indexFile : Option Nat
  metaFile : Option (List Meta)
deriving DecidableEq

/-- `self.index.ntotal`, reading an absent index as zero vectors. -/
def ntotal (st : StoreMem) : Nat :=
  st.index.getD 0

/-- The invariant of the claim: `len(self.meta) == self.index.ntotal`. -/
def invariant (st : StoreMem) : Prop :=
  st.meta.length = ntotal st

instance (st : StoreMem) : Decidable (invariant st) := by
  unfold invariant; infer_instance

/-- A langchain `Document` as produced by the loader / chunker: its
`page_content` and the two metadata keys the store reads
(`metadata.get` defaults are modelled by `Option`). -/
structure Doc where
  page_content : String
  source_file : Option String
  page_number : Option Int
deriving DecidableEq

/-- The metadata record built for a chunk (`store.py` 271-277 and
324-331): `source_file` defaulting to `"unknown"`, text truncated to
1000 characters, `page_number` defaulting to `-1`. -/
def metaOfDoc (d : Doc) : Meta :=
  { file := d.source_file.getD "unknown"
    text := String.mk (d.page_content.toList.take 1000)
    page_number := d.page_number.getD (-1) }

/-- `VectorStore._save_all` (`store.py` 92-121): the index file is
rewritten only when an index is present and holds at least one vector
("Skipping save - FAISS index is empty"); the metadata file is always
rewritten.  A stale index file is never removed. -/
def save_all (st : StoreMem) (fs : FS) : FS :=
  let fs1 :=
    match st.index with
    | some n => if 0 < n then { fs with indexFile := some n } else fs
    | none => fs
  { fs1 with metaFile := some st.meta }

/-- `VectorStore._load_or_init_index` (`store.py` 123-149), success
paths: both files present loads both; otherwise the store starts
empty. -/
def load_or_init_index (fs : FS) : StoreMem :=
  match fs.indexFile, fs.metaFile with
  | some n, some m => { index := some n, meta := m }
  | _, _ => { index := none, meta := [] }

/-- A filesystem state from which a load restores a consistent store:
when both files are present their lengths agree. -/
def fs_consistent (fs : FS) : Prop :=
  match fs.indexFile, fs.metaFile with
  | some n, some m => m.length = n
  | _, _ => True

instance (fs : FS) : Decidable (fs_consistent fs) := by
  unfold fs_consistent
  rcases fs.indexFile with _ | n <;> rcases fs.metaFile with _ | m <;>
    simp <;> infer_instance

/-- `VectorStore._add_vectors_faiss` (`store.py` 163-193): adding zero
vectors is a no-op; otherwise a fresh index is created when none
exists, and the vectors are appended. -/
def add_vectors_faiss (st : StoreMem) (nvecs : Nat) : StoreMem :=
  if nvecs = 0 then st
  else
    match st.index with
    | none => { st with index := some nvecs }
    | some n => { st with index := some (n + nvecs) }

/-- `VectorStore.build_from_folder` (`store.py` 234-281), FAISS branch.
Document loading and chunking are external (`load_text_from_file`,
`chunk_texts`), so the loaded documents and the resulting chunks are
parameters.  With no documents the store is emptied and saved; with
documents a fresh index holding one vector per chunk is built, the
metadata is rebuilt, and both are saved.  Returns the new memory state
and the new filesystem state. -/
def build_from_folder (fs : FS) (docs chunks : List Doc) : StoreMem × FS :=
  if docs = [] then
    let st : StoreMem := { index := none, meta := [] }
    (st, save_all st fs)
  else
    let st : StoreMem :=
      { index := some (chunks.map Doc.page_content).length
        meta := chunks.map metaOfDoc }
    (st, save_all st fs)

/-- `VectorStore.append_files` (`store.py` 283-350), FAISS branch.  The
method first reloads from disk, then embeds the chunks whose
`page_content` has a non-whitespace `strip()` and adds their vectors,
then appends a metadata record for every chunk (all chunks are
`Document`s so the `hasattr` guards on 312 and 324-325 hold), and
saves.  Both the loaded documents and the chunks are parameters. -/
def append_files (fs : FS) (docs chunks : List Doc) : StoreMem × FS :=
  let st := load_or_init_index fs
  if docs = [] then (st, fs)
  else
    let chunktexts :=
      (chunks.filter fun d => pyStrip d.page_content ≠ "").map Doc.page_content
    if chunktexts = [] then (st, fs)
    else
      let st1 := add_vectors_faiss st chunktexts.length
      let st2 := { st1 with meta := st1.meta ++ chunks.map metaOfDoc }
      (st2, save_all st2 fs)

/-! ### `VectorStore.search_faiss` — `store.py` 367-447

The embedding call and the FAISS `index.search` call are external; the
measured stage durations and the search outputs (`D[0]`, `I[0]`) are
parameters.  The returned timing dict may lack keys, so it is a record
of `Option` fields. -/

/-- The timing dict a FAISS search returns: keys may be absent. -/
structure SearchTimings where
  embedding_ms : Option ℚ
  vector_search_ms : Option ℚ
deriving DecidableEq

/-- The all-zero timing dict of the no-index early returns
(`store.py` 379, 385). -/
def zeroTimings : SearchTimings :=
  { embedding_ms := some 0, vector_search_ms := some 0 }

/-- One search hit (`store.py` 440-446): the spread `**meta` is `none`
when the metadata fell back to the empty dict. -/
structure Hit where
  meta : Option Meta
  score : ℚ
  score_normalized : ℚ
  chunk_id : String
  page_number : Int
deriving DecidableEq

/-- Python `self.meta[idx]` for an `idx` already known to satisfy
`idx < len(self.meta)`.  Nonnegative positions index from the front;
negative positions follow Python's wrap-around.  FAISS only ever
reports `-1` or a valid nonnegative id, and `-1` is skipped before any
lookup, so on library outputs only the first branch is reached. -/
def pyGet (meta : List Meta) (idx : Int) : Option Meta :=
  if 0 ≤ idx then meta.get? idx.toNat
  else meta.get? (meta.length - (-idx).toNat)

/-- The hit-list construction loop (`store.py` 432-447): walk the
`(I[0], D[0])` pairs, skip positions of `-1`, fall back to the empty
metadata dict when the position is at or beyond `len(self.meta)`, and
normalize each raw score. -/
def buildHits (meta : List Meta) (iids : List Int) (dists : List ℚ) : List Hit :=
  let scores := presentScores dists
  (iids.zip dists).filterMap fun p =>
    if p.1 = -1 then none
    else
      let m := if p.1 < (meta.length : Int) then pyGet meta p.1 else none
      some
        { meta := m
          score := p.2
          score_normalized := searchNormalize scores p.2
          chunk_id := toString p.1
          page_number := (m.map Meta.page_number).getD (-1) }

/-- The in-memory state the search actually uses: `append`/`search`
reload from disk when `self.index is None` (`store.py` 380-381). -/
def effectiveStore (fs : FS) (st : StoreMem) : StoreMem :=
  if st.index = none then load_or_init_index fs else st

/-- `VectorStore.search_faiss` (`store.py` 367-447).  `tEmbed` and
`tSearch` are the measured embedding and vector-search durations;
`faissSearch K` is the library call `self.index.search(q_vec, K)`
returning `(D[0], I[0])`. -/
def search_faiss (fs : FS) (st : StoreMem) (k : Nat) (tEmbed tSearch : ℚ)
    (faissSearch : Nat → List ℚ × List Int) : List Hit × SearchTimings :=
  if fs.indexFile = none ∧ st.index = none then ([], zeroTimings)
  else
    let st1 := effectiveStore fs st
    if st1.index = none then ([], zeroTimings)
    else
      let tims1 : SearchTimings := { embedding_ms := some tEmbed, vector_search_ms := none }
      let K := min k (ntotal st1)
      if K = 0 then ([], tims1)
      else
        let DI := faissSearch K
        (buildHits st1.meta DI.2 DI.1,
         { embedding_ms := some tEmbed, vector_search_ms := some tSearch })

/-! ### `VectorStore.search_pinecone`, rerank step — `store.py` 495-513

The reranker's raw scores are a parameter.  numpy's `min`/`max` over a
nonempty array are modelled by folds. -/

/-- numpy `arr.min()` (the empty case never arises: the rerank step
runs only when there are matches). -/
def listMin : List ℚ → ℚ
  | [] => 0
  | x :: xs => xs.foldl min x

/-- numpy `arr.max()`. -/
def listMax : List ℚ → ℚ
  | [] => 0
  | x :: xs => xs.foldl max x

/-- The epsilon clamp `1e-9` of `store.py` 503. -/
def rerank_epsilon : ℚ := 1 / 1000000000

/-- The min-max denominator `rerank_scores.max() - rerank_scores.min() + 1e-9`. -/
def rerank_denom (rs : List ℚ) : ℚ :=
  listMax rs - listMin rs + rerank_epsilon

/-- `0.5 * normalized_scores + 0.5 * original similarities`
(`store.py` 503-504), elementwise over the candidate batch. -/
def rerank_combined (sims rs : List ℚ) : List ℚ :=
  List.zipWith
    (fun r s => (1/2) * ((r - listMin rs) / rerank_denom rs) + (1/2) * s)
    rs sims

/-- One retrieved Pinecone document (`store.py` 486-493). -/
structure PDoc where
  chunk_id : String
  text : String
  file : String
  page_number : Int
  score : ℚ
  score_normalized : ℚ
deriving DecidableEq

/-- The rerank step of `search_pinecone` (`store.py` 495-513): blend
each document's similarity with its min-max-normalized rerank score,
overwrite `score_normalized`, and sort the batch descending by it
(Python `sorted(..., reverse=True)`). -/
def search_pinecone_rerank (docs : List PDoc) (rs : List ℚ) : List PDoc :=
  let combined := rerank_combined (docs.map PDoc.score) rs
  let docs2 := (docs.zip combined).map fun p => { p.1 with score_normalized := p.2 }
  docs2.mergeSort fun a b => b.score_normalized ≤ a.score_normalized

/-! ### Grounding validation — `llm.py` 99-144 and 180-185 -/

/-- The meta-question keyword list (`llm.py` 105-110), verbatim —
including the final capitalized entry, which can never match the
lowercased query. -/
def meta_keywords : List String :=
  ["tell me about the documents", "what documents", "knowledge base",
   "what\x27s in", "summarize the documents", "overview of documents",
   "what information", "contents of", "available documents",
   "document summary", "what do you know", "what can you help me with",
   "what topics", "document topics", "files available",
   "Tell me about the documents in your knowledge base"]

/-- `_is_meta_question` (`llm.py` 99-111): some keyword occurs in the
lowercased query. -/
def is_meta_question (query : String) : Bool :=
  meta_keywords.any fun kw => strContains (pyLower query) kw

/-- The refusal-phrase list of `_validate_context_usage`
(`llm.py` 128-137). -/
def insufficient_phrases : List String :=
  ["don\x27t have enough information", "insufficient information",
   "not enough information", "cannot find", "not mentioned",
   "not provided", "no information about", "context doesn\x27t contain"]

/-- `_validate_context_usage` (`llm.py` 113-144): false on an empty
answer or empty snippet list; true for meta-questions; false when the
lowercased answer contains a refusal phrase; true otherwise.  No other
check is performed. -/
def validate_context_usage (answer : String) (snippets : List String)
    (query : String) : Bool :=
  if answer.isEmpty || snippets.isEmpty then false
  else if is_meta_question query then true
  else if insufficient_phrases.any (fun p => strContains (pyLower answer) p) then false
  else true

/-- The canonical refusal sentence substituted by `generate_answer`
(`llm.py` 183). -/
def refusal_answer : String :=
  "I don\x27t have enough information in the provided documents to answer this question."

/-- The post-generation step of `generate_answer` (`llm.py` 180-185):
return the model's answer when validation passes, the canonical
refusal sentence otherwise. -/
def finalize_answer (answer : String) (snippets : List String)
    (query : String) : String :=
  if validate_context_usage answer snippets query then answer
  else refusal_answer

/-- Modelled from the spec: the lexical-overlap signal the spec's
grounding check is built on — whether any word of the answer also
occurs among the words of the context (both lowercased).  When this is
false the overlap ratio is zero, hence below every fixed positive
threshold.  Stated only to exhibit counterexample inputs; the code
embeds no overlap computation. -/
def sharesWord (answer context : String) : Bool :=
  (splitOnSpace (pyLower answer).toList).any fun w =>
    (splitOnSpace (pyLower context).toList).contains w

/-! ### Embedding prefix policy — `embeddings.py` 10-27 -/

/-- The prefix the hf branch of `load_embeddings` computes for a model
family (`embeddings.py` 15-20). -/
def prefix_for_model (embed_model : String) (is_query : Bool) : String :=
  if strContains (pyLower embed_model) "bge" then
    if is_query then "Represent this sentence for searching relevant passages: " else ""
  else if strContains (pyLower embed_model) "e5" then
    if is_query then "query: " else "passage: "
  else
    if is_query then "query: " else ""

/-- The texts actually passed to `model.encode` (`embeddings.py` 22):
`prefixed_texts = texts` — the prefix application is commented out, so
the inputs are encoded unchanged. -/
def prefixed_texts (embed_model : String) (is_query : Bool)
    (texts : List String) : List String :=
  texts

/-! ### Timing aggregation — `app.py` `ask`, lines 281-287 -/

/-- The per-stage timing values present in the `timings` dict when the
total is computed; `rerank_ms` is present only on the remote
(Pinecone) path. -/
structure AskTimings where
  language_detection_ms : ℚ
  embedding_ms : ℚ
  vector_search_ms : ℚ
  rerank_ms : Option ℚ
  llm_generation_ms : ℚ
deriving DecidableEq

/-- Python `round(x, 4)` (as exact rational rounding; on the sums that
occur every operand is already a multiple of `1/10000`, where rounding
is the identity and no tie-breaking is exercised). -/
def round4 (x : ℚ) : ℚ :=
  (round (x * 10000) : ℤ) / 10000

/-- `timings["total_ms"]` (`app.py` 282-287): the rounded sum of
detection, embedding, vector search and generation times. -/
def totalMs (t : AskTimings) : ℚ :=
  round4 (t.language_detection_ms + t.embedding_ms +
          t.vector_search_ms + t.llm_generation_ms)

/-- Modelled from the spec: the total the claim describes — the sum of
every recorded stage, the optional rerank stage included.  Stated only
to be compared against `totalMs`, which embeds the code. -/
def totalMs_claim (t : AskTimings) : ℚ :=
  t.language_detection_ms + t.embedding_ms + t.vector_search_ms +
    (t.rerank_ms.getD 0) + t.llm_generation_ms

/-! ## Theorems settling the claims -/

/-- C1, counterexample.  The claim says distances strictly between the
thresholds are interpolated between 0.95 and 0.6; at distance `1.45`
the code's map yields `0.825` while that interpolation yields `0.775`,
so the claim is false: the code interpolates with slope `0.25/0.9`,
not `0.35/0.9`. -/
theorem C1_counterexample :
    normalize_score_multi (29/20) = 33/40 ∧
    normalize_score_claim (29/20) = 31/40 ∧
    normalize_score_multi (29/20) ≠ normalize_score_claim (29/20) := by
  refine ⟨by norm_num [normalize_score_multi], by norm_num [normalize_score_claim], ?_⟩
  norm_num [normalize_score_multi, normalize_score_claim]

/-- C1, amended.  The multi-hit normalization maps distances at or
below `1.0` to `0.95` and at or above `1.9` to `0.6`; strictly between
the thresholds it is the linear map `0.95 - (d - 1) * (5/18)` (slope
`0.25/0.9`), whose values stay strictly between `0.7` and `0.95` — so
the map approaches `0.7`, not `0.6`, at the high threshold and is not
continuous there. -/
theorem C1_amended :
    (∀ d : ℚ, d ≤ 1 → normalize_score_multi d = 95/100) ∧
    (∀ d : ℚ, 19/10 ≤ d → normalize_score_multi d = 6/10) ∧
    (∀ d : ℚ, 1 < d → d < 19/10 →
      normalize_score_multi d = 95/100 - (d - 1) * (5/18)) ∧
    (∀ d : ℚ, 1 < d → d < 19/10 →
      7/10 < normalize_score_multi d ∧ normalize_score_multi d < 95/100) := by
  refine ⟨?_, ?_, ?_, ?_⟩
  · intro d hd; simp only [normalize_score_multi]; rw [if_pos hd]
  · intro d hd
    simp only [normalize_score_multi]
    rw [if_neg (by linarith), if_pos (by linarith)]
  · intro d h1 h2
    simp only [normalize_score_multi]
    rw [if_neg (by linarith), if_neg (by linarith)]
    norm_num
  · intro d h1 h2
    simp only [normalize_score_multi]
    rw [if_neg (by linarith), if_neg (by linarith)]
    constructor <;> nlinarith

/-- Witness for C1_amended at the in-between distance `1.45`. -/
theorem C1_amended_witness :
    1 < (29:ℚ)/20 ∧ (29:ℚ)/20 < 19/10 ∧
    normalize_score_multi (29/20) = 95/100 - ((29:ℚ)/20 - 1) * (5/18) := by
  refine ⟨by norm_num, by norm_num, ?_⟩
  exact C1_amended.2.2.1 (29/20) (by norm_num) (by norm_num)

/-- C2, counterexample.  The answer `"bananas"` against the context
`"quantum physics"` is non-empty, is no meta-question answer, contains
no refusal phrase, and shares not a single word with the context — its
lexical overlap is zero, below every fixed positive threshold — yet the
generation path returns it unchanged instead of substituting the
canonical refusal sentence. -/
theorem C2_counterexample :
    "bananas" ≠ "" ∧
    ["quantum physics"] ≠ ([] : List String) ∧
    is_meta_question "anything" = false ∧
    insufficient_phrases.all (fun p => !(strContains (pyLower "bananas") p)) = true ∧
    sharesWord "bananas" "quantum physics" = false ∧
    finalize_answer "bananas" ["quantum physics"] "anything" = "bananas" ∧
    "bananas" ≠ refusal_answer := by
  exact ⟨by decide, by decide, by decide, by decide, by decide, by decide, by decide⟩

/-- C2, amended.  The generation path performs no lexical-overlap
check at all: every non-empty answer with non-empty snippets that is
not a meta-question answer and contains no known refusal phrase is
accepted and returned unchanged. -/
theorem C2_amended (answer : String) (snippets : List String) (query : String)
    (h1 : answer ≠ "") (h2 : snippets ≠ [])
    (h3 : is_meta_question query = false)
    (h4 : insufficient_phrases.all (fun p => !(strContains (pyLower answer) p)) = true) :
    finalize_answer answer snippets query = answer := by
  have he : answer.isEmpty = false := by
    cases hx : answer.isEmpty
    · rfl
    · exact absurd ((String.isEmpty_iff answer).mp hx) h1
  have hs : snippets.isEmpty = false := by
    cases hx : snippets.isEmpty
    · rfl
    · exact absurd (List.isEmpty_iff.mp hx) h2
  have hph : insufficient_phrases.any (fun p => strContains (pyLower answer) p) = false := by
    rw [List.any_eq_false]
    intro p hp
    have := (List.all_eq_true.mp h4) p hp
    simpa using this
  simp [finalize_answer, validate_context_usage, he, hs, h3, hph]

/-- Witness for C2_amended on a concrete non-meta, phrase-free answer. -/
theorem C2_amended_witness :
    finalize_answer "bananas" ["quantum physics"] "anything" = "bananas" :=
  C2_amended "bananas" ["quantum physics"] "anything"
    (by decide) (by decide) (by decide) (by decide)

/-- C3.  For the e5-family model the hf embedding branch computes the
prefix `"query: "` for queries, but the encoded texts are the raw
inputs: the prefix application on `embeddings.py` line 22 is commented
out, contradicting the function's own docstring ("Generate normalized
embedding with correct prefix for query/document"), so `"hello"` is
encoded as `"hello"`, not as `"query: hello"`. -/
theorem C3_prefix_dropped :
    prefix_for_model "intfloat/multilingual-e5-large" true = "query: " ∧
    prefixed_texts "intfloat/multilingual-e5-large" true ["hello"] = ["hello"] ∧
    prefixed_texts "intfloat/multilingual-e5-large" true ["hello"] ≠
      ["query: " ++ "hello"] := by
  exact ⟨by decide, rfl, by decide⟩

/-- C7.  The multi-hit score normalization is monotone: of two raw
distances within the threshold bounds, the smaller receives the larger
(or equal) normalized score. -/
theorem C7_monotonic (d1 d2 : ℚ) (hlo : 1 ≤ d1) (hhi : d2 ≤ 19/10)
    (hlt : d1 < d2) :
    normalize_score_multi d2 ≤ normalize_score_multi d1 := by
  simp only [normalize_score_multi]
  split_ifs <;> nlinarith

/-- Witness for C7_monotonic at distances `1.2 < 1.5`. -/
theorem C7_monotonic_witness :
    (1:ℚ) ≤ 6/5 ∧ (3:ℚ)/2 ≤ 19/10 ∧ (6:ℚ)/5 < 3/2 ∧
    normalize_score_multi (3/2) ≤ normalize_score_multi (6/5) :=
  ⟨by norm_num, by norm_num, by norm_num,
   C7_monotonic (6/5) (3/2) (by norm_num) (by norm_num) (by norm_num)⟩

/-- C8, counterexample.  A search with exactly one hit assigns it the
normalized score `1.0` (the code's "perfect score"), which is not the
`0.95` maximum-confidence band the claim names. -/
theorem C8_counterexample :
    buildHits [⟨"a.txt", "Paris is the capital.", 1⟩] [0] [1/2] =
      [{ meta := some ⟨"a.txt", "Paris is the capital.", 1⟩, score := 1/2,
         score_normalized := 1, chunk_id := "0", page_number := 1 }] ∧
    (1 : ℚ) ≠ 95/100 := by
  refine ⟨?_, by norm_num⟩
  simp [buildHits, presentScores, searchNormalize, pyGet]
  norm_num
  decide

/-- C8, amended.  Whenever the filtered distance list has exactly one
entry — the single-hit case — every produced hit carries the
normalized score `1.0`. -/
theorem C8_amended (meta : List Meta) (iids : List Int) (dists : List ℚ)
    (h : (presentScores dists).length = 1) :
    ∀ hit ∈ buildHits meta iids dists, hit.score_normalized = 1 := by
  intro hit hmem
  simp only [buildHits, List.mem_filterMap] at hmem
  obtain ⟨p, hp, hf⟩ := hmem
  by_cases hneg : p.1 = -1
  · simp [hneg] at hf
  · rw [if_neg hneg] at hf
    obtain rfl := Option.some.inj hf
    simp [searchNormalize, h]

/-- Witness for C8_amended on a one-hit search output. -/
theorem C8_amended_witness :
    (presentScores [1/2]).length = 1 ∧
    ∀ hit ∈ buildHits [⟨"a.txt", "Paris is the capital.", 1⟩] [0] [1/2],
      hit.score_normalized = 1 := by
  have h : (presentScores [(1:ℚ)/2]).length = 1 := by
    simp [presentScores]; norm_num
  exact ⟨h, C8_amended _ _ _ h⟩

/-- C4, counterexample.  A successful persist/load cycle can break
`len(meta) == ntotal`: build a one-chunk store (both files written),
rebuild from an empty folder (`_save_all` skips the empty index, so the
one-vector index file stays on disk while the metadata file becomes
`[]`), then load — the loaded store has one vector and zero metadata
records. -/
theorem C4_counterexample :
    ¬ invariant (load_or_init_index
      (build_from_folder
        (build_from_folder ⟨none, none⟩
          [⟨"Paris is the capital.", some "a.txt", some 1⟩]
          [⟨"Paris is the capital.", some "a.txt", some 1⟩]).2
        [] []).2) := by
  decide

/-- C4, amended.  The exact-index invariant `len(meta) == ntotal`
holds after `build_from_folder` (in memory), after `append_files` on
chunks with non-whitespace content starting from consistent files,
and is preserved by `_save_all` provided the store saved is non-empty
or no index file pre-exists (excluding exactly the stale-index-file
cycle of the counterexample); a load from consistent files restores
it. -/
theorem C4_amended :
    (∀ (fs : FS) (docs chunks : List Doc),
       invariant (build_from_folder fs docs chunks).1) ∧
    (∀ (fs : FS) (docs chunks : List Doc), fs_consistent fs →
       (∀ c ∈ chunks, pyStrip c.page_content ≠ "") →
       invariant (append_files fs docs chunks).1) ∧
    (∀ (st : StoreMem) (fs : FS), invariant st →
       (0 < ntotal st ∨ fs.indexFile = none) →
       fs_consistent (save_all st fs)) ∧
    (∀ fs : FS, fs_consistent fs → invariant (load_or_init_index fs)) := by
  have hload : ∀ fs : FS, fs_consistent fs → invariant (load_or_init_index fs) := by
    intro fs hc
    rcases hfi : fs.indexFile with _ | n <;> rcases hmf : fs.metaFile with _ | m <;>
      simp_all [fs_consistent, load_or_init_index, invariant, ntotal]
  refine ⟨?_, ?_, ?_, hload⟩
  · intro fs docs chunks
    by_cases hd : docs = [] <;>
      simp [build_from_folder, hd, invariant, ntotal]
  · intro fs docs chunks hc hnw
    have hst := hload fs hc
    simp only [append_files]
    by_cases hd : docs = []
    · simpa [hd] using hst
    · rw [if_neg hd]
      have hfilter : chunks.filter (fun d => pyStrip d.page_content ≠ "") = chunks := by
        apply List.filter_eq_self.mpr
        intro c hcm
        simpa using hnw c hcm
      by_cases hct : ((chunks.filter fun d => pyStrip d.page_content ≠ "").map
          Doc.page_content) = []
      · rw [if_pos hct]
        exact hst
      · rw [if_neg hct]
        simp only [hfilter] at hct ⊢
        have hne : chunks.length ≠ 0 := by
          intro h0
          exact hct (by simpa [List.map_eq_nil_iff] using List.length_eq_zero.mp h0)
        simp only [invariant, add_vectors_faiss, List.length_map]
        rcases hidx : (load_or_init_index fs).index with _ | n <;>
          simp_all [invariant, ntotal, hidx, hne]
  · intro st fs hinv hor
    rcases hidx : st.index with _ | n
    · rcases hor with h0 | hfi
      · simp [ntotal, hidx] at h0
      · simp [save_all, hidx, fs_consistent, hfi]
    · by_cases hn : 0 < n
      · have : st.meta.length = n := by simpa [invariant, ntotal, hidx] using hinv
        simp [save_all, hidx, hn, fs_consistent, this]
      · rcases hor with h0 | hfi
        · simp [ntotal, hidx] at h0; omega
        · simp [save_all, hidx, hn, fs_consistent, hfi]

/-- Witness for C4_amended: an append of one non-whitespace chunk onto
a consistent one-record store keeps the invariant. -/
theorem C4_amended_witness :
    fs_consistent (⟨some 1, some [⟨"a.txt", "t", 1⟩]⟩ : FS) ∧
    invariant (append_files ⟨some 1, some [⟨"a.txt", "t", 1⟩]⟩
      [⟨"x", some "a.txt", some 1⟩] [⟨"x", some "a.txt", some 1⟩]).1 :=
  ⟨by decide, C4_amended.2.1 _ _ _ (by decide) (by decide)⟩

/-- C5, counterexample.  With recorded stage times detection `1`,
embedding `2`, vector search `3`, rerank `5` and generation `4`, the
code reports total `10` while the claim's sum of all recorded stages is
`15`: the recorded rerank time is omitted from the total. -/
theorem C5_counterexample :
    totalMs ⟨1, 2, 3, some 5, 4⟩ = 10 ∧
    totalMs_claim ⟨1, 2, 3, some 5, 4⟩ = 15 ∧
    totalMs ⟨1, 2, 3, some 5, 4⟩ ≠ totalMs_claim ⟨1, 2, 3, some 5, 4⟩ := by
  have h1 : totalMs ⟨1, 2, 3, some 5, 4⟩ = 10 := by
    norm_num [totalMs, round4, round_eq]
  have h2 : totalMs_claim ⟨1, 2, 3, some 5, 4⟩ = 15 := by
    norm_num [totalMs_claim]
  exact ⟨h1, h2, by rw [h1, h2]; norm_num⟩

/-- C5, amended.  The reported total is the exact sum of the recorded
language-detection, embedding, vector-search and generation times (the
operands are multiples of `1/10000`, where the final rounding is the
identity), and it ignores the rerank time entirely even when that
stage was recorded. -/
theorem C5_amended (t : AskTimings)
    (h1 : ∃ n : ℤ, t.language_detection_ms = n / 10000)
    (h2 : ∃ n : ℤ, t.embedding_ms = n / 10000)
    (h3 : ∃ n : ℤ, t.vector_search_ms = n / 10000)
    (h4 : ∃ n : ℤ, t.llm_generation_ms = n / 10000) :
    totalMs t = t.language_detection_ms + t.embedding_ms +
      t.vector_search_ms + t.llm_generation_ms ∧
    ∀ r, totalMs { t with rerank_ms := r } = totalMs t := by
  obtain ⟨a, ha⟩ := h1
  obtain ⟨b, hb⟩ := h2
  obtain ⟨c, hc⟩ := h3
  obtain ⟨d, hd⟩ := h4
  constructor
  · simp only [totalMs, round4, ha, hb, hc, hd]
    have hcast : ((a:ℚ)/10000 + b/10000 + c/10000 + d/10000) * 10000
        = ((a + b + c + d : ℤ) : ℚ) := by
      push_cast
      ring
    rw [hcast, round_intCast]
    push_cast
    ring
  · intro r
    rfl

/-- Witness for C5_amended on concrete stage times `1, 2, 3, 4`. -/
theorem C5_amended_witness :
    (∃ n : ℤ, (1:ℚ) = n / 10000) ∧
    totalMs ⟨1, 2, 3, none, 4⟩ = 1 + 2 + 3 + 4 := by
  refine ⟨⟨10000, by norm_num⟩, ?_⟩
  exact (C5_amended ⟨1, 2, 3, none, 4⟩ ⟨10000, by norm_num⟩ ⟨20000, by norm_num⟩
    ⟨30000, by norm_num⟩ ⟨40000, by norm_num⟩).1

/-- C6, counterexample.  With a loaded two-vector index and `k = 0`
the search does return an empty hit list without error, but the
returned timing record is not all-zero: it carries the measured
embedding time (here `7`) and no vector-search entry at all, because
the query is embedded before `k` is clamped. -/
theorem C6_counterexample :
    (search_faiss ⟨some 2, some [⟨"a.txt", "t", 1⟩, ⟨"b.txt", "u", 2⟩]⟩
        (load_or_init_index ⟨some 2, some [⟨"a.txt", "t", 1⟩, ⟨"b.txt", "u", 2⟩]⟩)
        0 7 9 (fun _ => ([], []))) =
      ([], { embedding_ms := some 7, vector_search_ms := none }) ∧
    ({ embedding_ms := some 7, vector_search_ms := none } : SearchTimings) ≠
      zeroTimings := by
  exact ⟨by decide, by decide⟩

/-- C6, amended.  The FAISS search never raises and clamps `k` to the
stored vector count: with no index anywhere, or when loading yields no
index, it returns an empty hit list with zero timings; with an index
present and an effective `k` of zero it returns an empty hit list
whose timing record holds the measured embedding time and no
vector-search entry; and the result for any `k` equals the result for
`k` clamped to the vector count. -/
theorem C6_amended :
    (∀ (fs : FS) (st : StoreMem) (k : Nat) (tE tS : ℚ)
        (f : Nat → List ℚ × List Int),
       fs.indexFile = none → st.index = none →
       search_faiss fs st k tE tS f = ([], zeroTimings)) ∧
    (∀ (fs : FS) (st : StoreMem) (k : Nat) (tE tS : ℚ)
        (f : Nat → List ℚ × List Int),
       (effectiveStore fs st).index = none →
       search_faiss fs st k tE tS f = ([], zeroTimings)) ∧
    (∀ (fs : FS) (st : StoreMem) (k : Nat) (tE tS : ℚ)
        (f : Nat → List ℚ × List Int),
       ¬ (fs.indexFile = none ∧ st.index = none) →
       (effectiveStore fs st).index ≠ none →
       min k (ntotal (effectiveStore fs st)) = 0 →
       search_faiss fs st k tE tS f =
         ([], { embedding_ms := some tE, vector_search_ms := none })) ∧
    (∀ (fs : FS) (st : StoreMem) (k : Nat) (tE tS : ℚ)
        (f : Nat → List ℚ × List Int),
       search_faiss fs st k tE tS f =
         search_faiss fs st (min k (ntotal (effectiveStore fs st))) tE tS f) := by
  refine ⟨?_, ?_, ?_, ?_⟩
  · intro fs st k tE tS f hfi hsi
    simp [search_faiss, hfi, hsi]
  · intro fs st k tE tS f heff
    by_cases hfirst : fs.indexFile = none ∧ st.index = none
    · simp [search_faiss, hfirst.1, hfirst.2]
    · simp [search_faiss, hfirst, heff]
  · intro fs st k tE tS f hfirst heff hk
    simp [search_faiss, hfirst, heff, hk]
  · intro fs st k tE tS f
    simp only [search_faiss, effectiveStore]
    rw [Nat.min_assoc, Nat.min_self]

/-- Witness for C6_amended: a one-vector store queried with `k = 0`
returns no hits and only the measured embedding time. -/
theorem C6_amended_witness :
    (¬ ((⟨some 1, some [⟨"a.txt", "t", 1⟩]⟩ : FS).indexFile = none ∧
        (load_or_init_index ⟨some 1, some [⟨"a.txt", "t", 1⟩]⟩).index = none)) ∧
    min 0 (ntotal (effectiveStore ⟨some 1, some [⟨"a.txt", "t", 1⟩]⟩
      (load_or_init_index ⟨some 1, some [⟨"a.txt", "t", 1⟩]⟩))) = 0 ∧
    search_faiss ⟨some 1, some [⟨"a.txt", "t", 1⟩]⟩
      (load_or_init_index ⟨some 1, some [⟨"a.txt", "t", 1⟩]⟩) 0 4 9
      (fun _ => ([], [])) =
      ([], { embedding_ms := some 4, vector_search_ms := none }) := by
  refine ⟨by decide, by decide, ?_⟩
  exact C6_amended.2.2.1 _ _ _ _ _ _ (by decide) (by decide) (by decide)

/-- The running minimum of a fold never exceeds the running maximum. -/
lemma foldl_min_le_foldl_max (xs : List ℚ) : ∀ a b : ℚ, a ≤ b →
    xs.foldl min a ≤ xs.foldl max b := by
  induction xs with
  | nil => intro a b h; simpa using h
  | cons x xs ih =>
      intro a b h
      simp only [List.foldl_cons]
      exact ih _ _ (le_trans (min_le_left a x) (le_trans h (le_max_left b x)))

/-- The batch minimum never exceeds the batch maximum. -/
lemma listMin_le_listMax (rs : List ℚ) : listMin rs ≤ listMax rs := by
  cases rs with
  | nil => simp [listMin, listMax]
  | cons x xs => exact foldl_min_le_foldl_max xs x x le_rfl

/-- C9.  The rerank combination of the remote-index path is safe and as
specified: the min-max denominator is strictly positive for every
candidate batch — the epsilon clamp covers the all-scores-identical
case; each blended score is `0.5` times the min-max-normalized rerank
score plus `0.5` times the original similarity; and the returned batch
is sorted descending by the blended score. -/
theorem C9_rerank_combination :
    (∀ rs : List ℚ, 0 < rerank_denom rs) ∧
    (∀ sims rs : List ℚ, rerank_combined sims rs =
      List.zipWith (fun r s =>
        (1/2) * ((r - listMin rs) / (listMax rs - listMin rs + rerank_epsilon)) +
        (1/2) * s) rs sims) ∧
    (∀ (docs : List PDoc) (rs : List ℚ),
      (search_pinecone_rerank docs rs).Pairwise fun a b =>
        b.score_normalized ≤ a.score_normalized) := by
  refine ⟨?_, ?_, ?_⟩
  · intro rs
    have h := listMin_le_listMax rs
    simp only [rerank_denom, rerank_epsilon]
    linarith
  · intro sims rs
    rfl
  · intro docs rs
    simp only [search_pinecone_rerank]
    have h := @List.sorted_mergeSort PDoc
      (fun a b => decide (b.score_normalized ≤ a.score_normalized))
      (fun a b c hab hbc => by
        simp only [decide_eq_true_eq] at *
        exact le_trans hbc hab)
      (fun a b => by
        simp only [Bool.or_eq_true, decide_eq_true_eq]
        exact le_total b.score_normalized a.score_normalized)
      ((docs.zip (rerank_combined (docs.map PDoc.score) rs)).map
        fun p => { p.1 with score_normalized := p.2 })
    exact h.imp fun hab => by simpa using hab

/-- C10.  The FAISS hit-list construction is total on library outputs:
positions of `-1` are skipped (the hit count is exactly the count of
non-`-1` positions), and a position at or beyond the metadata length
produces a hit with empty metadata and `page_number = -1` rather than
an out-of-bounds error. -/
theorem C10_total_hits (meta : List Meta) (iids : List Int) (dists : List ℚ) :
    (buildHits meta iids dists).length =
      ((iids.zip dists).filter fun p => p.1 ≠ -1).length ∧
    ∀ p ∈ iids.zip dists, (meta.length : Int) ≤ p.1 →
      ({ meta := none, score := p.2,
         score_normalized := searchNormalize (presentScores dists) p.2,
         chunk_id := toString p.1, page_number := -1 } : Hit) ∈
        buildHits meta iids dists := by
  constructor
  · simp only [buildHits]
    generalize (iids.zip dists) = l
    induction l with
    | nil => rfl
    | cons p l ih =>
        by_cases hp : p.1 = -1
        · simp [hp, ih]
        · simp [hp, ih]
  · intro p hp hge
    have hmlen : (0:Int) ≤ (meta.length : Int) := Int.natCast_nonneg _
    have hne : p.1 ≠ -1 := by
      intro h
      rw [h] at hge
      omega
    have hnlt : ¬ (p.1 < (meta.length : Int)) := not_lt.mpr hge
    simp only [buildHits, List.mem_filterMap]
    exact ⟨p, hp, by rw [if_neg hne, if_neg hnlt]; rfl⟩

/-- Witness for C10_total_hits: position `5` against a one-record
metadata list yields the empty-metadata hit. -/
theorem C10_total_hits_witness :
    ({ meta := none, score := 3,
       score_normalized := searchNormalize (presentScores [2, 3]) 3,
       chunk_id := toString (5:Int), page_number := -1 } : Hit) ∈
      buildHits [⟨"a.txt", "t", 1⟩] [-1, 5] [2, 3] :=
  (C10_total_hits _ _ _).2 (5, 3) (by decide) (by decide)

end RagApp
